import Mathlib

/-!
Shallow embedding of the seeding pipelines of `youtube_search_clone`
(`scripts/seed.py` and `scripts/seed_agnews_remote.py`) and proofs about
their deduplication, harvesting, shuffling/limiting and batch-loading
behaviour.

Candidates are `(title, description)` pairs of strings throughout, exactly
as in the Python code.
-/

/-- A harvested candidate: `(title, description)`. -/
abbrev Cand := String × String

/- ### Python string primitives

Lean core's `String.toLower`, `String.trim` and `String.split` are defined
by well-founded recursion over byte positions and do not reduce inside the
kernel, so the Python string operations the scripts use are modelled
directly over the character list of the string (ASCII case folding, as in
the data actually handled). -/

/-- Python `str.lower()`. -/
def pyLower (s : String) : String := ⟨s.data.map Char.toLower⟩

/-- Python `str.strip()`: drop leading and trailing whitespace. -/
def pyStrip (s : String) : String :=
  ⟨((s.data.dropWhile Char.isWhitespace).reverse.dropWhile Char.isWhitespace).reverse⟩

/-- Helper for `pySplit`: split a character list on whitespace runs,
dropping empty pieces; `cur` is the current word, reversed. -/
def pySplitChars : List Char → List Char → List (List Char)
  | cur, [] => if cur = [] then [] else [cur.reverse]
  | cur, c :: cs =>
    if c.isWhitespace then
      (if cur = [] then [] else [cur.reverse]) ++ pySplitChars [] cs
    else
      pySplitChars (c :: cur) cs

/-- Python `str.split()` with no argument: split on whitespace runs,
dropping empty pieces. -/
def pySplit (s : String) : List String := (pySplitChars [] s.data).map (fun w => ⟨w⟩)

/- ### Deduplication (seed.py `main`, lines 1026-1035) -/

/-- Loop body of the global dedup in `seed.py main`: walk `all_data`
keeping `(title, desc)` when `title.lower()` is not in `seen` AND `desc`
is truthy (non-empty); only then is the key added to `seen`. -/
def dedupSeedGo (seen : List String) : List Cand → List Cand
  | [] => []
  | (t, d) :: rest =>
    if pyLower t ∉ seen ∧ d ≠ "" then
      (t, d) :: dedupSeedGo (pyLower t :: seen) rest
    else
      dedupSeedGo seen rest

/-- Global deduplication of `seed.py main` (lines 1026-1035): first
occurrence of a lower-cased title wins, candidates with empty (falsy)
description are skipped and do not reserve their key. -/
def dedupSeed (l : List Cand) : List Cand := dedupSeedGo [] l

/- ### Deduplication (seed_agnews_remote.py `deduplicate_by_title`) -/

/-- Loop body of `deduplicate_by_title`: skip a pair whose lower-cased
title was already seen, keep it otherwise. No description check. -/
def dedupByTitleGo (seen : List String) : List Cand → List Cand
  | [] => []
  | (t, d) :: rest =>
    if pyLower t ∈ seen then
      dedupByTitleGo seen rest
    else
      (t, d) :: dedupByTitleGo (pyLower t :: seen) rest

/-- `deduplicate_by_title` of `seed_agnews_remote.py` (lines 176-197). -/
def deduplicate_by_title (pairs : List Cand) : List Cand :=
  dedupByTitleGo [] pairs

/- ### The spec's version of Merge, for comparison -/

/-- Modelled from the spec's words (not from the code), for refutation:
"Key = lower-cased, trimmed title. First occurrence of a key wins; later
occurrences are dropped. A candidate with empty/missing description is
dropped regardless of key uniqueness." -/
def specMergeGo (seen : List String) : List Cand → List Cand
  | [] => []
  | (t, d) :: rest =>
    if pyLower (pyStrip t) ∉ seen ∧ d ≠ "" then
      (t, d) :: specMergeGo (pyLower (pyStrip t) :: seen) rest
    else
      specMergeGo seen rest

/-- The Merge operation as the spec describes it (trimmed key). -/
def specMerge (l : List Cand) : List Cand := specMergeGo [] l

/- ### Text normalization (seed_agnews_remote.py `normalize_text`) -/

/-- `normalize_text`: strip leading/trailing whitespace, then collapse
internal whitespace runs to single spaces (Python
`" ".join(text.strip().split())`; `str.split()` drops empty pieces). -/
def normalize_text (s : String) : String :=
  " ".intercalate (pySplit (pyStrip s))

/-- The per-line acceptance of `load_agnews_pairs` (lines 150-159): given a
decoded 2-element array `[title_raw, desc_raw]`, normalize both fields and
keep the pair only when both are non-empty. (JSON decoding of the raw line
and the skipping of malformed lines are abstracted: the input is the list
of successfully decoded 2-element arrays.) -/
def agnewsParseLine (raw : String × String) : Option Cand :=
  let t := normalize_text raw.1
  let d := normalize_text raw.2
  if t = "" ∨ d = "" then none else some (t, d)

/-- `load_agnews_pairs` over the decoded lines of the snapshot file. -/
def load_agnews_pairs (raws : List (String × String)) : List Cand :=
  raws.filterMap agnewsParseLine

/- ### Basic dedup lemmas -/

theorem dedupSeedGo_eq_dedupByTitleGo_filter (seen : List String) :
    ∀ l : List Cand,
      dedupSeedGo seen l = dedupByTitleGo seen (l.filter (fun p => p.2 ≠ ""))
  | [] => rfl
  | (t, d) :: rest => by
    by_cases hd : d = ""
    · subst hd
      simp [dedupSeedGo, List.filter_cons,
        dedupSeedGo_eq_dedupByTitleGo_filter seen rest]
    · by_cases hs : pyLower t ∈ seen
      · simp [dedupSeedGo, List.filter_cons, hd, hs, dedupByTitleGo,
          dedupSeedGo_eq_dedupByTitleGo_filter seen rest]
      · simp [dedupSeedGo, List.filter_cons, hd, hs, dedupByTitleGo,
          dedupSeedGo_eq_dedupByTitleGo_filter (pyLower t :: seen) rest]

theorem mem_dedupByTitleGo_key_notin (seen : List String) :
    ∀ l : List Cand, ∀ p : Cand, p ∈ dedupByTitleGo seen l → pyLower p.1 ∉ seen
  | [], p, hp => by simp [dedupByTitleGo] at hp
  | (t, d) :: rest, p, hp => by
    by_cases hs : pyLower t ∈ seen
    · simp only [dedupByTitleGo, if_pos hs] at hp
      exact mem_dedupByTitleGo_key_notin seen rest p hp
    · simp only [dedupByTitleGo, if_neg hs] at hp
      rcases List.mem_cons.1 hp with hp | hp
      · subst hp; exact hs
      · have := mem_dedupByTitleGo_key_notin (pyLower t :: seen) rest p hp
        intro hmem
        exact this (List.mem_cons_of_mem _ hmem)

theorem dedupByTitleGo_keys_nodup (seen : List String) :
    ∀ l : List Cand,
      ((dedupByTitleGo seen l).map (fun p => pyLower p.1)).Nodup
  | [] => by simp [dedupByTitleGo]
  | (t, d) :: rest => by
    by_cases hs : pyLower t ∈ seen
    · simpa [dedupByTitleGo, hs] using dedupByTitleGo_keys_nodup seen rest
    · simp only [dedupByTitleGo, if_neg hs, List.map_cons, List.nodup_cons]
      refine ⟨?_, dedupByTitleGo_keys_nodup (pyLower t :: seen) rest⟩
      intro hmem
      rcases List.mem_map.1 hmem with ⟨p, hp, hkey⟩
      have := mem_dedupByTitleGo_key_notin (pyLower t :: seen) rest p hp
      exact this (by simp [hkey])

theorem dedupByTitleGo_id_of_nodup (seen : List String) :
    ∀ l : List Cand,
      (∀ p ∈ l, pyLower p.1 ∉ seen) →
      ((l.map (fun p => pyLower p.1)).Nodup) →
      dedupByTitleGo seen l = l
  | [], _, _ => rfl
  | (t, d) :: rest, hout, hnd => by
    have hs : pyLower t ∉ seen := hout (t, d) (by simp)
    simp only [dedupByTitleGo, if_neg hs]
    congr 1
    apply dedupByTitleGo_id_of_nodup (pyLower t :: seen) rest
    · intro p hp
      simp only [List.map_cons, List.nodup_cons] at hnd
      intro hmem
      rcases List.mem_cons.1 hmem with h | h
      · exact hnd.1 (h ▸ List.mem_map_of_mem _ hp)
      · exact hout p (List.mem_cons_of_mem _ hp) h
    · simp only [List.map_cons, List.nodup_cons] at hnd
      exact hnd.2

theorem dedupByTitle_idem (l : List Cand) :
    deduplicate_by_title (deduplicate_by_title l) = deduplicate_by_title l := by
  unfold deduplicate_by_title
  apply dedupByTitleGo_id_of_nodup
  · intro p hp
    simp
  · exact dedupByTitleGo_keys_nodup [] l

theorem mem_dedupSeedGo_desc_ne (seen : List String) :
    ∀ l : List Cand, ∀ p : Cand, p ∈ dedupSeedGo seen l → p.2 ≠ ""
  | [], p, hp => by simp [dedupSeedGo] at hp
  | (t, d) :: rest, p, hp => by
    by_cases hc : pyLower t ∉ seen ∧ d ≠ ""
    · simp only [dedupSeedGo, if_pos hc] at hp
      rcases List.mem_cons.1 hp with hp | hp
      · subst hp; exact hc.2
      · exact mem_dedupSeedGo_desc_ne (pyLower t :: seen) rest p hp
    · simp only [dedupSeedGo, if_neg hc] at hp
      exact mem_dedupSeedGo_desc_ne seen rest p hp

theorem dedupSeed_filter_self (l : List Cand) :
    (dedupSeed l).filter (fun p => p.2 ≠ "") = dedupSeed l := by
  apply List.filter_eq_self.2
  intro p hp
  simpa using mem_dedupSeedGo_desc_ne [] l p hp

theorem dedupSeed_idem (l : List Cand) :
    dedupSeed (dedupSeed l) = dedupSeed l := by
  have h1 : dedupSeed (dedupSeed l)
      = dedupByTitleGo [] ((dedupSeed l).filter (fun p => p.2 ≠ "")) :=
    dedupSeedGo_eq_dedupByTitleGo_filter [] (dedupSeed l)
  rw [h1, dedupSeed_filter_self]
  have h2 : dedupSeed l = dedupByTitleGo [] (l.filter (fun p => p.2 ≠ "")) :=
    dedupSeedGo_eq_dedupByTitleGo_filter [] l
  rw [h2]
  apply dedupByTitleGo_id_of_nodup
  · intro p hp; simp
  · exact dedupByTitleGo_keys_nodup [] _

/- ### Claim theorems: deduplication (C1, C3, C4, C9) -/

/-- C1 counterexample: the claim says the dedup key is the lower-cased
TRIMMED title, so on `[("A","x"), (" a ","y")]` the second candidate
(whose trimmed key equals the first's) must be dropped — as `specMerge`,
built from the spec's words, indeed does. The code (`dedupSeed`, which
keys on the untrimmed lower-cased title) keeps both, although the two
trimmed keys coincide. -/
theorem C1_counterexample :
    dedupSeed [("A", "x"), (" a ", "y")] = [("A", "x"), (" a ", "y")] ∧
    specMerge [("A", "x"), (" a ", "y")] = [("A", "x")] ∧
    pyLower (pyStrip "A") = pyLower (pyStrip " a ") := by
  decide

/-- C1 amended: `Merge` returns exactly the candidates that are the first
occurrence of their key — where the key is the lower-cased (UNtrimmed)
title — among the candidates whose description is non-empty; equivalently
`dedupSeed` is `deduplicate_by_title` after filtering out empty
descriptions. The claim's example still holds. -/
theorem C1_dedup_first_occurrence :
    (∀ l : List Cand,
        dedupSeed l = deduplicate_by_title (l.filter (fun p => p.2 ≠ ""))) ∧
    dedupSeed [("A", "x"), ("a", " x "), ("B", "y")] = [("A", "x"), ("B", "y")] := by
  constructor
  · intro l
    exact dedupSeedGo_eq_dedupByTitleGo_filter [] l
  · decide

/-- C3 counterexample: two records that differ only in surrounding
whitespace both survive `Merge`, and their lower-cased trimmed titles are
equal — contradicting the claimed invariant, which includes exactly this
whitespace case. -/
theorem C3_counterexample :
    dedupSeed [("A", "x"), (" a ", "y")] = [("A", "x"), (" a ", "y")] ∧
    pyLower (pyStrip "A") = pyLower (pyStrip " a ") := by
  decide

/-- C3 amended: no two records in the output of either dedup have equal
lower-cased UNtrimmed titles (titles differing only in surrounding
whitespace are distinct keys and may both survive). -/
theorem C3_no_duplicate_keys :
    (∀ l : List Cand,
        (dedupSeed l).Pairwise (fun a b => pyLower a.1 ≠ pyLower b.1)) ∧
    (∀ l : List Cand,
        (deduplicate_by_title l).Pairwise (fun a b => pyLower a.1 ≠ pyLower b.1)) := by
  have key : ∀ l : List Cand, ∀ seen : List String,
      (dedupByTitleGo seen l).Pairwise (fun a b => pyLower a.1 ≠ pyLower b.1) := by
    intro l seen
    have h := dedupByTitleGo_keys_nodup seen l
    rw [List.Nodup, List.pairwise_map] at h
    exact h
  constructor
  · intro l
    unfold dedupSeed
    rw [dedupSeedGo_eq_dedupByTitleGo_filter [] l]
    exact key _ []
  · intro l
    exact key l []

/-- C4 counterexample: a whitespace-only description is truthy in Python,
so `("A", " ")` survives `Merge` although its description normalizes to
the empty string — contradicting the claimed invariant. -/
theorem C4_counterexample :
    dedupSeed [("A", " ")] = [("A", " ")] ∧ normalize_text " " = "" := by
  decide

/-- C4 amended: every record surviving the harvest pipeline's `Merge` has
a non-empty description STRING (whitespace-only descriptions survive,
since no normalization is applied there); in the bulk pipeline the loader
normalizes both fields and drops empty results before dedup, so every
loaded record's description is a non-empty normalization of a raw field. -/
theorem C4_nonempty_descriptions :
    (∀ l : List Cand, ∀ p : Cand, p ∈ dedupSeed l → p.2 ≠ "") ∧
    (∀ raws : List (String × String), ∀ p : Cand, p ∈ load_agnews_pairs raws →
        p.2 ≠ "" ∧ ∃ raw ∈ raws, p.2 = normalize_text raw.2) := by
  constructor
  · intro l p hp
    exact mem_dedupSeedGo_desc_ne [] l p hp
  · intro raws p hp
    rcases List.mem_filterMap.1 hp with ⟨raw, hraw, hparse⟩
    unfold agnewsParseLine at hparse
    by_cases h : normalize_text raw.1 = "" ∨ normalize_text raw.2 = ""
    · simp [h] at hparse
    · simp only [if_neg h] at hparse
      push_neg at h
      cases hparse
      exact ⟨h.2, raw, hraw, rfl⟩

/-- C4 witness: the amended fact at the concrete inputs `[("A","x")]` and
`[("T"," a  b ")]`. -/
theorem C4_nonempty_descriptions_witness :
    ("A", "x").2 ≠ "" ∧
    (("T", "a b").2 ≠ "" ∧ ∃ raw ∈ [("T", " a  b ")], ("T", "a b").2 = normalize_text raw.2) :=
  ⟨C4_nonempty_descriptions.1 [("A", "x")] ("A", "x") (by decide),
   C4_nonempty_descriptions.2 [("T", " a  b ")] ("T", "a b") (by decide)⟩

/-- C9: both deduplication routines are idempotent — feeding the output of
`Merge` back into `Merge` returns it unchanged. -/
theorem C9_dedup_idempotent :
    (∀ l : List Cand, dedupSeed (dedupSeed l) = dedupSeed l) ∧
    (∀ l : List Cand,
        deduplicate_by_title (deduplicate_by_title l) = deduplicate_by_title l) :=
  ⟨dedupSeed_idem, dedupByTitle_idem⟩

/- ### The store and the batch loaders -/

/-- One operation issued to the PostgreSQL store. `insertRow` is one
`INSERT INTO worlds (title, description) VALUES (%s, %s)` (seed.py inserts
row by row inside a batch; `executemany` in the agnews script likewise
issues one insert per pair of the batch). -/
inductive StoreOp
  | connect
  | deleteAll
  | insertRow (p : Cand)
  | commit
  | countRows
  deriving DecidableEq, Repr

/-- Helper for `chunks`: peel off `bs`-element slices of `l`; the first
list is pure fuel bounding the iteration count (one slice consumes at
least one element when `0 < bs`), kept structural so that the kernel can
evaluate it. -/
def chunksAux {α : Type} (bs : Nat) : List α → List α → List (List α)
  | _, [] => []
  | [], _ :: _ => []
  | _ :: fuel, x :: xs => ((x :: xs).take bs) :: chunksAux bs fuel ((x :: xs).drop bs)

/-- Python batch slicing: `worlds[i:i+bs] for i in range(0, len(worlds), bs)`. -/
def chunks {α : Type} (bs : Nat) (l : List α) : List (List α) :=
  chunksAux bs l l

/-- The insert loop of both loaders: for each batch slice, insert each of
its rows, then commit once. -/
def insertBatchOps (bs : Nat) (worlds : List Cand) : List StoreOp :=
  (chunks bs worlds).flatMap (fun batch => batch.map StoreOp.insertRow ++ [StoreOp.commit])

/-- Store operations of `seed.py insert_worlds_to_db` (lines 643-726):
connect, DELETE FROM worlds, commit, insert in batches of 100 committing
after each batch, then SELECT COUNT(*) and report it. -/
def seedLoaderOps (worlds : List Cand) : List StoreOp :=
  StoreOp.connect :: StoreOp.deleteAll :: StoreOp.commit ::
    (insertBatchOps 100 worlds ++ [StoreOp.countRows])

/-- Store operations of `seed_agnews_remote.py insert_worlds_to_db`
(lines 200-243): connect, DELETE FROM worlds, commit, insert in batches
of 1000 committing after each batch. No count query afterwards. -/
def agnewsLoaderOps (worlds : List Cand) : List StoreOp :=
  StoreOp.connect :: StoreOp.deleteAll :: StoreOp.commit ::
    insertBatchOps 1000 worlds

/-- Effect of one store operation on the rows of the `worlds` table. -/
def applyOp (rows : List Cand) : StoreOp → List Cand
  | StoreOp.deleteAll => []
  | StoreOp.insertRow p => rows ++ [p]
  | _ => rows

/-- Run a list of store operations over the table rows. -/
def runOps (ops : List StoreOp) (rows : List Cand) : List Cand :=
  ops.foldl applyOp rows

/-- The answers of the `SELECT COUNT(*)` queries issued along a run. -/
def countReads : List StoreOp → List Cand → List Nat
  | [], _ => []
  | op :: rest, rows =>
    (if op = StoreOp.countRows then [rows.length] else [])
      ++ countReads rest (applyOp rows op)

/-- Number of transaction commits in a list of store operations. -/
def commitCount (ops : List StoreOp) : Nat :=
  (ops.filter (fun op => op = StoreOp.commit)).length

/-- Whether the store raises during a run: `failAt = some k` makes the
`k`-th issued operation raise (a connection failure is `some 0`), `none`
is a store that never fails. -/
def opsRaise (ops : List StoreOp) (failAt : Option Nat) : Bool :=
  match failAt with
  | none => false
  | some k => decide (k < ops.length)

/-- Exit code of the harvest pipeline after `insert_worlds_to_db`
(seed.py lines 720-726): the whole loader body is wrapped in
`try/except Exception`; the handler logs, rolls back and closes the
connection but neither re-raises nor calls `sys.exit`, so `main` returns
normally and the interpreter exits 0 whether or not the store raised. -/
def seedPipelineExitCode (worlds : List Cand) (failAt : Option Nat) : Nat :=
  match opsRaise (seedLoaderOps worlds) failAt with
  | true => 0
  | false => 0

/-- Exit code of the bulk import pipeline's loader
(seed_agnews_remote.py lines 241-243): `except psycopg2.Error` calls
`sys.exit(1)`; otherwise `main` finishes normally with exit code 0. -/
def agnewsLoaderExitCode (worlds : List Cand) (failAt : Option Nat) : Nat :=
  if opsRaise (agnewsLoaderOps worlds) failAt then 1 else 0

/-- The tail of `seed.py main` (lines 1040-1047): if fewer than 10 unique
entries remain after deduplication, `main` returns before
`insert_worlds_to_db` is ever called, so no store operation is issued. -/
def seedMainIngest (all_data : List Cand) : List StoreOp :=
  let unique_worlds := dedupSeed all_data
  if unique_worlds.length < 10 then [] else seedLoaderOps unique_worlds

/- ### Store run lemmas -/

theorem runOps_cons (op : StoreOp) (ops : List StoreOp) (s : List Cand) :
    runOps (op :: ops) s = runOps ops (applyOp s op) := rfl

theorem runOps_append (a b : List StoreOp) (s : List Cand) :
    runOps (a ++ b) s = runOps b (runOps a s) :=
  List.foldl_append applyOp s a b

theorem runOps_insertRows (rows : List Cand) :
    ∀ s : List Cand, runOps (rows.map StoreOp.insertRow) s = s ++ rows := by
  induction rows with
  | nil => intro s; simp [runOps]
  | cons r rest ih =>
    intro s
    simp only [List.map_cons, runOps_cons, applyOp]
    rw [ih]
    simp

theorem runOps_batches (bss : List (List Cand)) :
    ∀ s : List Cand,
      runOps (bss.flatMap (fun b => b.map StoreOp.insertRow ++ [StoreOp.commit])) s
        = s ++ bss.flatten := by
  induction bss with
  | nil => intro s; simp [runOps]
  | cons b rest ih =>
    intro s
    simp only [List.flatMap_cons, List.flatten, List.append_assoc]
    rw [runOps_append, runOps_insertRows, runOps_append]
    have hc : runOps [StoreOp.commit] (s ++ b) = s ++ b := rfl
    rw [hc, ih]
    simp

theorem commitCount_append (a b : List StoreOp) :
    commitCount (a ++ b) = commitCount a + commitCount b := by
  simp [commitCount, List.filter_append]

theorem commitCount_cons (op : StoreOp) (ops : List StoreOp) :
    commitCount (op :: ops)
      = (if op = StoreOp.commit then 1 else 0) + commitCount ops := by
  unfold commitCount
  rw [List.filter_cons]
  by_cases h : op = StoreOp.commit
  · simp [h, Nat.add_comm]
  · simp [h]

theorem commitCount_insertRows (rows : List Cand) :
    commitCount (rows.map StoreOp.insertRow) = 0 := by
  induction rows with
  | nil => rfl
  | cons r rest ih => simpa [commitCount, List.filter_cons] using ih

theorem commitCount_batches (bss : List (List Cand)) :
    commitCount (bss.flatMap (fun b => b.map StoreOp.insertRow ++ [StoreOp.commit]))
      = bss.length := by
  induction bss with
  | nil => rfl
  | cons b rest ih =>
    simp only [List.flatMap_cons, commitCount_append, commitCount_insertRows,
      List.length_cons, ih]
    simp [commitCount, List.filter_cons]
    omega

theorem countRows_not_mem_batches (bss : List (List Cand)) :
    StoreOp.countRows ∉
      bss.flatMap (fun b => b.map StoreOp.insertRow ++ [StoreOp.commit]) := by
  induction bss with
  | nil => simp
  | cons b rest ih =>
    simp only [List.flatMap_cons, List.mem_append, List.mem_map, List.mem_singleton]
    push_neg
    refine ⟨⟨?_, ?_⟩, ?_⟩
    · intro p _ h
      exact StoreOp.noConfusion h
    · intro h
      exact StoreOp.noConfusion h
    · intro h
      simp only [List.mem_flatMap] at h
      exact ih (List.mem_flatMap.2 h)

theorem countReads_cons (op : StoreOp) (ops : List StoreOp) (rows : List Cand) :
    countReads (op :: ops) rows
      = (if op = StoreOp.countRows then [rows.length] else [])
          ++ countReads ops (applyOp rows op) := rfl

theorem countReads_append (a b : List StoreOp) :
    ∀ rows : List Cand,
      countReads (a ++ b) rows = countReads a rows ++ countReads b (runOps a rows) := by
  induction a with
  | nil => intro rows; simp [countReads, runOps]
  | cons op rest ih =>
    intro rows
    simp only [List.cons_append, countReads_cons, runOps_cons, ih, List.append_assoc]

theorem countReads_of_not_mem :
    ∀ (ops : List StoreOp) (rows : List Cand),
      StoreOp.countRows ∉ ops → countReads ops rows = []
  | [], _, _ => rfl
  | op :: rest, rows, h => by
    have hop : op ≠ StoreOp.countRows := fun he => h (he ▸ List.mem_cons_self op rest)
    rw [countReads_cons, if_neg hop, countReads_of_not_mem rest _ (fun hm => h (List.mem_cons_of_mem _ hm))]
    simp

/- ### Chunk lemmas -/

theorem chunksAux_fuel_irrel {α : Type} (bs : Nat) (hbs : 0 < bs) :
    ∀ (f f' l : List α), l.length ≤ f.length → l.length ≤ f'.length →
      chunksAux bs f l = chunksAux bs f' l := by
  intro f
  induction f with
  | nil =>
    intro f' l hf _
    have : l = [] := List.eq_nil_of_length_eq_zero (Nat.le_zero.1 hf)
    subst this
    cases f' <;> rfl
  | cons a fs ih =>
    intro f' l hf hf'
    cases l with
    | nil => cases f' <;> rfl
    | cons x xs =>
      cases f' with
      | nil => simp at hf'
      | cons b fs' =>
        simp only [chunksAux]
        congr 1
        apply ih
        · simp only [List.length_drop, List.length_cons] at hf ⊢
          omega
        · simp only [List.length_drop, List.length_cons] at hf' ⊢
          omega

theorem chunks_nil {α : Type} (bs : Nat) : chunks bs ([] : List α) = [] := rfl

theorem chunks_cons {α : Type} (bs : Nat) (hbs : 0 < bs) (l : List α) (h : l ≠ []) :
    chunks bs l = l.take bs :: chunks bs (l.drop bs) := by
  cases l with
  | nil => exact absurd rfl h
  | cons x xs =>
    show chunksAux bs (x :: xs) (x :: xs) = _
    simp only [chunksAux]
    congr 1
    apply chunksAux_fuel_irrel bs hbs
    · simp only [List.length_drop, List.length_cons]
      omega
    · exact Nat.le_refl _

theorem chunks_flatten_of_le {α : Type} (bs : Nat) (hbs : 0 < bs) :
    ∀ (n : Nat) (l : List α), l.length ≤ n → (chunks bs l).flatten = l := by
  intro n
  induction n with
  | zero =>
    intro l hl
    have : l = [] := List.eq_nil_of_length_eq_zero (Nat.le_zero.1 hl)
    subst this
    rfl
  | succ n ih =>
    intro l hl
    by_cases hnil : l = []
    · subst hnil; rfl
    · rw [chunks_cons bs hbs l hnil, List.flatten_cons]
      rw [ih (l.drop bs) (by simp only [List.length_drop]; omega)]
      exact List.take_append_drop bs l

theorem chunks_flatten {α : Type} (bs : Nat) (hbs : 0 < bs) (l : List α) :
    (chunks bs l).flatten = l :=
  chunks_flatten_of_le bs hbs l.length l (Nat.le_refl _)

/- ### Claim theorems: persistence (C2, C7, C10) -/

/-- C2 counterexample: a store failure on the very first operation (the
connection attempt) of the harvest pipeline's loader still ends with exit
code 0 — `insert_worlds_to_db` in seed.py catches every exception, logs it
and returns normally — contradicting the claimed non-zero exit. -/
theorem C2_counterexample :
    opsRaise (seedLoaderOps [("t", "d")]) (some 0) = true ∧
    seedPipelineExitCode [("t", "d")] (some 0) = 0 := by
  decide

/-- C2 amended: a store error (unreachable store, or a failure while
clearing or inserting) makes the BULK IMPORT pipeline exit with code 1,
but the multi-source harvest pipeline catches the error inside
`insert_worlds_to_db` and terminates normally with exit code 0. -/
theorem C2_exit_codes :
    (∀ (worlds : List Cand) (failAt : Option Nat),
        seedPipelineExitCode worlds failAt = 0) ∧
    (∀ (worlds : List Cand) (k : Nat),
        opsRaise (agnewsLoaderOps worlds) (some k) = true →
        agnewsLoaderExitCode worlds (some k) = 1) := by
  constructor
  · intro worlds failAt
    unfold seedPipelineExitCode
    cases opsRaise (seedLoaderOps worlds) failAt <;> rfl
  · intro worlds k h
    unfold agnewsLoaderExitCode
    rw [h]
    rfl

/-- C2 witness: a failure at the first loader operation of the bulk import
pipeline exits 1. -/
theorem C2_exit_codes_witness :
    opsRaise (agnewsLoaderOps [("t", "d")]) (some 0) = true ∧
    agnewsLoaderExitCode [("t", "d")] (some 0) = 1 :=
  ⟨by decide, C2_exit_codes.2 [("t", "d")] 0 (by decide)⟩

set_option maxRecDepth 4000 in
/-- C7 counterexample: the bulk import pipeline's batch loader never
issues a `SELECT COUNT(*)` — on the claim's own 250-record input no
count query appears among its store operations, so "afterwards re-queries
and reports the row count" fails for it. -/
theorem C7_counterexample :
    StoreOp.countRows ∉ agnewsLoaderOps (List.replicate 250 (("t", "d") : Cand)) := by
  decide

/-- C7 amended: both loaders, on any non-empty record list, first delete
all rows and commit, then insert in fixed-size batches (100 for the
harvest loader, 1000 for the bulk loader) committing once per batch, so
the table ends up holding exactly the given records; on 250 records the
harvest loader's batches are 100, 100 and 50 rows and its final count
query — which only the harvest loader performs — reports 250. -/
theorem C7_batch_loader (worlds s : List Cand) (hne : worlds ≠ []) :
    runOps (seedLoaderOps worlds) s = worlds ∧
    commitCount (seedLoaderOps worlds) = 1 + (chunks 100 worlds).length ∧
    countReads (seedLoaderOps worlds) s = [worlds.length] ∧
    (worlds.length = 250 → (chunks 100 worlds).map List.length = [100, 100, 50]) ∧
    runOps (agnewsLoaderOps worlds) s = worlds ∧
    commitCount (agnewsLoaderOps worlds) = 1 + (chunks 1000 worlds).length ∧
    countReads (agnewsLoaderOps worlds) s = [] := by
  have hrun : ∀ bs : Nat, 0 < bs →
      runOps (insertBatchOps bs worlds) ([] : List Cand) = worlds := by
    intro bs hbs
    unfold insertBatchOps
    rw [runOps_batches, chunks_flatten bs hbs]
    simp
  have hseed_run : runOps (seedLoaderOps worlds) s = worlds := by
    unfold seedLoaderOps
    rw [runOps_cons, runOps_cons, runOps_cons, runOps_append]
    show runOps [StoreOp.countRows] (runOps (insertBatchOps 100 worlds) []) = worlds
    rw [hrun 100 (by norm_num)]
    rfl
  refine ⟨hseed_run, ?_, ?_, ?_, ?_, ?_, ?_⟩
  · unfold seedLoaderOps
    rw [commitCount_cons, commitCount_cons, commitCount_cons, commitCount_append]
    unfold insertBatchOps
    rw [commitCount_batches]
    rw [commitCount_cons]
    simp [commitCount]
  · unfold seedLoaderOps
    rw [countReads_cons, countReads_cons, countReads_cons, countReads_append]
    have hnm : StoreOp.countRows ∉ insertBatchOps 100 worlds := by
      unfold insertBatchOps
      exact countRows_not_mem_batches (chunks 100 worlds)
    rw [countReads_of_not_mem _ _ hnm]
    show [((runOps (insertBatchOps 100 worlds) []).length)] = [worlds.length]
    rw [hrun 100 (by norm_num)]
  · intro h250
    have h1 : worlds ≠ [] := hne
    have hd1 : (worlds.drop 100).length = 150 := by simp [List.length_drop, h250]
    have hd2 : (worlds.drop 200).length = 50 := by simp [List.length_drop, h250]
    rw [chunks_cons 100 (by norm_num) worlds h1]
    rw [chunks_cons 100 (by norm_num) (worlds.drop 100)
      (by intro hnil; rw [hnil] at hd1; simp at hd1)]
    rw [List.drop_drop]
    rw [chunks_cons 100 (by norm_num) (worlds.drop (100 + 100))
      (by intro hnil; norm_num at hnil; omega)]
    rw [List.drop_drop]
    have hd3 : worlds.drop (100 + (100 + 100)) = [] := by
      apply List.drop_eq_nil_of_le
      omega
    rw [hd3, chunks_nil]
    simp only [List.map_cons, List.map_nil, List.length_take, List.length_drop, h250]
    norm_num
  · unfold agnewsLoaderOps
    rw [runOps_cons, runOps_cons, runOps_cons]
    show runOps (insertBatchOps 1000 worlds) [] = worlds
    exact hrun 1000 (by norm_num)
  · unfold agnewsLoaderOps
    rw [commitCount_cons, commitCount_cons, commitCount_cons]
    unfold insertBatchOps
    rw [commitCount_batches]
    simp
  · unfold agnewsLoaderOps
    rw [countReads_cons, countReads_cons, countReads_cons]
    apply countReads_of_not_mem
    unfold insertBatchOps
    exact countRows_not_mem_batches (chunks 1000 worlds)

/-- C7 witness: the amended loader facts at the claim's concrete input,
250 identical records over an arbitrary pre-existing row. -/
theorem C7_batch_loader_witness :
    runOps (seedLoaderOps (List.replicate 250 (("t", "d") : Cand))) [("old", "row")]
        = List.replicate 250 (("t", "d") : Cand) ∧
    commitCount (seedLoaderOps (List.replicate 250 (("t", "d") : Cand)))
        = 1 + (chunks 100 (List.replicate 250 (("t", "d") : Cand))).length ∧
    countReads (seedLoaderOps (List.replicate 250 (("t", "d") : Cand))) [("old", "row")]
        = [(List.replicate 250 (("t", "d") : Cand)).length] ∧
    ((List.replicate 250 (("t", "d") : Cand)).length = 250 →
      (chunks 100 (List.replicate 250 (("t", "d") : Cand))).map List.length
        = [100, 100, 50]) ∧
    runOps (agnewsLoaderOps (List.replicate 250 (("t", "d") : Cand))) [("old", "row")]
        = List.replicate 250 (("t", "d") : Cand) ∧
    commitCount (agnewsLoaderOps (List.replicate 250 (("t", "d") : Cand)))
        = 1 + (chunks 1000 (List.replicate 250 (("t", "d") : Cand))).length ∧
    countReads (agnewsLoaderOps (List.replicate 250 (("t", "d") : Cand))) [("old", "row")]
        = [] :=
  C7_batch_loader (List.replicate 250 (("t", "d") : Cand)) [("old", "row")]
    (List.length_pos.1 (by rw [List.length_replicate]; norm_num))

/-- C10: when fewer than 10 unique entries remain after deduplication,
`seed.py main` returns before calling `insert_worlds_to_db`: no store
operation at all is issued (in particular no DELETE and no INSERT), and
the table rows are left untouched. -/
theorem C10_small_harvest_skips_store (all_data s : List Cand)
    (h : (dedupSeed all_data).length < 10) :
    seedMainIngest all_data = [] ∧
    runOps (seedMainIngest all_data) s = s ∧
    StoreOp.deleteAll ∉ seedMainIngest all_data ∧
    (∀ p : Cand, StoreOp.insertRow p ∉ seedMainIngest all_data) := by
  have he : seedMainIngest all_data = [] := by
    unfold seedMainIngest
    simp [h]
  refine ⟨he, ?_, ?_, ?_⟩
  · rw [he]; rfl
  · rw [he]; simp
  · intro p; rw [he]; simp

/-- C10 witness: the empty harvest (0 unique entries) issues no store
operation and leaves a one-row table unchanged. -/
theorem C10_small_harvest_skips_store_witness :
    seedMainIngest [] = [] ∧
    runOps (seedMainIngest []) [("old", "row")] = [("old", "row")] ∧
    StoreOp.deleteAll ∉ seedMainIngest [] ∧
    (∀ p : Cand, StoreOp.insertRow p ∉ seedMainIngest []) :=
  C10_small_harvest_skips_store [] [("old", "row")] (by decide)

/- ### Bulk import pipeline: shuffle and limit (seed_agnews_remote.py `main`) -/

/-- The post-load phase of `seed_agnews_remote.py main` (lines 316-339):
`sys.exit(1)` (modelled as `none`) when no pairs were loaded; otherwise
deduplicate by title, shuffle in place when requested (`random.shuffle`
modelled by an arbitrary permutation `perm`), then cut to `limit`; the
resulting slice (`some final_pairs`) is handed to `insert_worlds_to_db`
even when it is shorter than the requested limit (that case only logs a
warning). -/
def agnewsMainPrepare (shuffle : Bool) (perm : List Cand → List Cand)
    (limit : Nat) (raw_pairs : List Cand) : Option (List Cand) :=
  if raw_pairs = [] then none
  else
    let unique_pairs := deduplicate_by_title raw_pairs
    let shuffled := if shuffle then perm unique_pairs else unique_pairs
    some (shuffled.take limit)

/-- C8: in the bulk import pipeline the shuffle (any permutation, as
`random.shuffle` produces) is applied to the deduplicated set strictly
before the limit; the slice handed to the Batch Loader has length
`min limit (number of unique rows)`, and when fewer unique rows exist
than requested the pipeline still proceeds to the loader (the result is
`some`, not an error exit). -/
theorem C8_shuffle_before_limit (raw_pairs : List Cand) (limit : Nat)
    (perm : List Cand → List Cand)
    (hperm : ∀ l : List Cand, (perm l).Perm l)
    (hne : raw_pairs ≠ []) :
    agnewsMainPrepare true perm limit raw_pairs
      = some ((perm (deduplicate_by_title raw_pairs)).take limit) ∧
    ((perm (deduplicate_by_title raw_pairs)).take limit).length
      = min limit (deduplicate_by_title raw_pairs).length := by
  constructor
  · unfold agnewsMainPrepare
    simp [hne]
  · rw [List.length_take, (hperm (deduplicate_by_title raw_pairs)).length_eq]

/-- C8 witness: identity shuffle on a one-pair input with limit 5 — the
unique row count (1) is below the limit and the pipeline still hands the
slice on. -/
theorem C8_shuffle_before_limit_witness :
    agnewsMainPrepare true id 5 [("T", "D")]
      = some ((id (deduplicate_by_title [("T", "D")])).take 5) ∧
    ((id (deduplicate_by_title [("T", "D")])).take 5).length
      = min 5 (deduplicate_by_title [("T", "D")]).length :=
  C8_shuffle_before_limit [("T", "D")] 5 id (fun l => List.Perm.refl l) (by decide)

/- ### Source adapters -/

/-- One parsed JSON payload of a "random quote" endpoint
(`api.quotable.io/random` fields `author`/`content`, and
`zenquotes.io/api/random` fields `a`/`q`). -/
structure QuoteItem where
  author : String
  content : String
  deriving DecidableEq, Repr

/-- The `(title, description)` pair a quote adapter appends:
`("Quote by {author}", "\"{content}\" - {author}")`. -/
def quoteCand (i : QuoteItem) : Cand :=
  ("Quote by " ++ i.author, "\"" ++ i.content ++ "\" - " ++ i.author)

/-- The title `scrape_random_facts` derives from a fact: the first 8
whitespace-separated words joined by single spaces, with "..." appended
when the fact has more than 8 words. -/
def factTitle (fact : String) : String :=
  let words := pySplit fact
  let title := " ".intercalate (words.take 8)
  if words.length > 8 then title ++ "..." else title

/-- The shared harvest loop of `scrape_quotable_quotes`,
`scrape_random_facts` and `scrape_zenquotes`:
`while len(acc) < target_count and attempts < max_attempts`, one request
per attempt (`stream n` is the parsed payload of the `n`-th request,
`none` a request exception or non-200 response), accepting an item when
its content is non-empty, unseen, and longer than 20 characters. `fuel`
counts the remaining attempts (initially `target * 2`); the result is the
accumulated pairs, the seen-content set, and the number of attempts
made. -/
def adapterGo {α : Type} (stream : Nat → Option α) (content : α → String)
    (mk : α → Cand) (target : Nat) :
    Nat → Nat → List String → List Cand → List Cand × List String × Nat
  | 0, attempts, seen, acc => (acc, seen, attempts)
  | fuel + 1, attempts, seen, acc =>
    if acc.length ≥ target then (acc, seen, attempts)
    else
      match stream attempts with
      | none => adapterGo stream content mk target fuel (attempts + 1) seen acc
      | some item =>
        if content item ≠ "" ∧ content item ∉ seen ∧ (content item).length > 20 then
          adapterGo stream content mk target fuel (attempts + 1)
            (content item :: seen) (acc ++ [mk item])
        else
          adapterGo stream content mk target fuel (attempts + 1) seen acc

/-- `scrape_quotable_quotes` (seed.py lines 436-499): content-keyed
accumulation with `max_attempts = target_count * 2`. -/
def scrape_quotable_quotes (stream : Nat → Option QuoteItem) (target : Nat) :
    List Cand :=
  (adapterGo stream QuoteItem.content quoteCand target (target * 2) 0 [] []).1

/-- Attempts made by a `scrape_quotable_quotes` run. -/
def quotableAttempts (stream : Nat → Option QuoteItem) (target : Nat) : Nat :=
  (adapterGo stream QuoteItem.content quoteCand target (target * 2) 0 [] []).2.2

/-- `scrape_random_facts` (seed.py lines 501-567): the fact text is both
the dedup key and the description; the title is derived by `factTitle`. -/
def scrape_random_facts (stream : Nat → Option String) (target : Nat) :
    List Cand :=
  (adapterGo stream id (fun f => (factTitle f, f)) target (target * 2) 0 [] []).1

/-- Attempts made by a `scrape_random_facts` run. -/
def factsAttempts (stream : Nat → Option String) (target : Nat) : Nat :=
  (adapterGo stream id (fun f => (factTitle f, f)) target (target * 2) 0 [] []).2.2

/-- `scrape_zenquotes` (seed.py lines 569-641): same loop shape and
acceptance test as quotable, fields `a`/`q`. -/
def scrape_zenquotes (stream : Nat → Option QuoteItem) (target : Nat) :
    List Cand :=
  (adapterGo stream QuoteItem.content quoteCand target (target * 2) 0 [] []).1

/-- The ArXiv result-collection loop (seed.py lines 205-216): fold the
fetched batches in completion order; within one batch, append a paper when
its lower-cased title is unseen, and stop consuming the batch (Python
`break`) once the target is reached right after an append. -/
def arxivAddBatch (target : Nat) :
    List String × List Cand → List Cand → List String × List Cand
  | (seen, papers), [] => (seen, papers)
  | (seen, papers), (t, s) :: rest =>
    if pyLower t ∉ seen then
      let papers' := papers ++ [(t, s)]
      if papers'.length ≥ target then (pyLower t :: seen, papers')
      else arxivAddBatch target (pyLower t :: seen, papers') rest
    else arxivAddBatch target (seen, papers) rest

/-- Papers accumulated by `scrape_arxiv_papers` over a list of fetched
batches (each batch already filtered to abstracts above the length
threshold inside `fetch_arxiv_batch`). -/
def arxivCollect (target : Nat) (batches : List (List Cand)) : List Cand :=
  (batches.foldl (arxivAddBatch target) ([], [])).2

/- ### Adapter lemmas -/

theorem adapterGo_attempts_le {α : Type} (stream : Nat → Option α)
    (content : α → String) (mk : α → Cand) (target : Nat) :
    ∀ (fuel attempts : Nat) (seen : List String) (acc : List Cand),
      (adapterGo stream content mk target fuel attempts seen acc).2.2
        ≤ attempts + fuel := by
  intro fuel
  induction fuel with
  | zero =>
    intro attempts seen acc
    exact Nat.le_add_right attempts 0
  | succ n ih =>
    intro attempts seen acc
    rw [adapterGo]
    split
    · exact Nat.le_add_right attempts (n + 1)
    · split
      · exact Nat.le_trans (ih (attempts + 1) seen acc) (by omega)
      · split
        · exact Nat.le_trans (ih (attempts + 1) _ _) (by omega)
        · exact Nat.le_trans (ih (attempts + 1) seen acc) (by omega)

theorem adapterGo_spec {α : Type} (stream : Nat → Option α)
    (content : α → String) (mk : α → Cand) (target : Nat) :
    ∀ (fuel attempts : Nat) (seen : List String) (acc : List Cand),
      ∃ items : List α,
        (adapterGo stream content mk target fuel attempts seen acc).1
            = acc ++ items.map mk ∧
        (adapterGo stream content mk target fuel attempts seen acc).2.1
            = (items.map content).reverse ++ seen ∧
        (∀ i ∈ items, content i ∉ seen) ∧
        (items.map content).Nodup := by
  intro fuel
  induction fuel with
  | zero =>
    intro attempts seen acc
    exact ⟨[], by simp [adapterGo], by simp [adapterGo], by simp, by simp⟩
  | succ n ih =>
    intro attempts seen acc
    rw [adapterGo]
    split
    · exact ⟨[], by simp, by simp, by simp, by simp⟩
    · split
      · exact ih (attempts + 1) seen acc
      · rename_i item heq
        split
        · rename_i hacc
          obtain ⟨items', h1, h2, h3, h4⟩ :=
            ih (attempts + 1) (content item :: seen) (acc ++ [mk item])
          refine ⟨item :: items', ?_, ?_, ?_, ?_⟩
          · rw [h1]
            simp
          · rw [h2]
            simp
          · intro i hi
            rcases List.mem_cons.1 hi with hi | hi
            · subst hi
              exact hacc.2.1
            · exact fun hmem => h3 i hi (List.mem_cons_of_mem _ hmem)
          · simp only [List.map_cons, List.nodup_cons]
            refine ⟨?_, h4⟩
            intro hmem
            rcases List.mem_map.1 hmem with ⟨i, hi, hci⟩
            exact h3 i hi (by rw [hci]; exact List.mem_cons_self _ _)
        · exact ih (attempts + 1) seen acc

theorem arxivAddBatch_inv (target : Nat) :
    ∀ (batch : List Cand) (seen : List String) (papers : List Cand),
      (papers.map (fun p => pyLower p.1)).Nodup →
      (∀ p ∈ papers, pyLower p.1 ∈ seen) →
      ((arxivAddBatch target (seen, papers) batch).2.map
          (fun p => pyLower p.1)).Nodup ∧
      (∀ p ∈ (arxivAddBatch target (seen, papers) batch).2,
          pyLower p.1 ∈ (arxivAddBatch target (seen, papers) batch).1) := by
  intro batch
  induction batch with
  | nil =>
    intro seen papers hnd hin
    exact ⟨hnd, hin⟩
  | cons c rest ih =>
    intro seen papers hnd hin
    obtain ⟨t, s⟩ := c
    rw [arxivAddBatch]
    by_cases hseen : pyLower t ∉ seen
    · simp only [if_pos hseen]
      have hnd' : ((papers ++ [(t, s)]).map (fun p => pyLower p.1)).Nodup := by
        rw [List.map_append]
        rw [List.nodup_append]
        refine ⟨hnd, by simp, ?_⟩
        intro a ha hb
        simp only [List.map_cons, List.map_nil, List.mem_singleton] at hb
        rcases List.mem_map.1 ha with ⟨p, hp, hpa⟩
        exact hseen (hb ▸ hpa ▸ hin p hp)
      have hin' : ∀ p ∈ papers ++ [(t, s)], pyLower p.1 ∈ pyLower t :: seen := by
        intro p hp
        rcases List.mem_append.1 hp with hp | hp
        · exact List.mem_cons_of_mem _ (hin p hp)
        · simp only [List.mem_singleton] at hp
          subst hp
          exact List.mem_cons_self _ _
      by_cases htarget : (papers ++ [(t, s)]).length ≥ target
      · simp only [if_pos htarget]
        exact ⟨hnd', hin'⟩
      · simp only [if_neg htarget]
        exact ih (pyLower t :: seen) (papers ++ [(t, s)]) hnd' hin'
    · simp only [if_neg hseen]
      exact ih seen papers hnd hin

theorem arxivFold_inv (target : Nat) :
    ∀ (batches : List (List Cand)) (seen : List String) (papers : List Cand),
      (papers.map (fun p => pyLower p.1)).Nodup →
      (∀ p ∈ papers, pyLower p.1 ∈ seen) →
      (((batches.foldl (arxivAddBatch target) (seen, papers)).2).map
          (fun p => pyLower p.1)).Nodup := by
  intro batches
  induction batches with
  | nil =>
    intro seen papers hnd _
    exact hnd
  | cons b rest ih =>
    intro seen papers hnd hin
    rw [List.foldl_cons]
    obtain ⟨hnd', hin'⟩ := arxivAddBatch_inv target b seen papers hnd hin
    exact ih _ _ hnd' (by
      intro p hp
      exact hin' p hp)

/- ### Claim theorems: adapters (C5, C6) -/

/-- A quote source that only ever serves 4 distinct valid quotes,
cycling through them on every request. -/
def C5stream : Nat → Option QuoteItem := fun n =>
  if n % 4 = 0 then some ⟨"Ada", "unique quotable content one"⟩
  else if n % 4 = 1 then some ⟨"Ada", "unique quotable content two"⟩
  else if n % 4 = 2 then some ⟨"Ada", "unique quotable content three"⟩
  else some ⟨"Ada", "unique quotable content four"⟩

set_option maxRecDepth 4000 in
/-- C5: the polling adapters (`scrape_quotable_quotes`,
`scrape_random_facts`) make at most `2 × targetCount` requests, and when
the ceiling is reached before `targetCount` candidates are collected they
return whatever was collected — no error: a run asking for 10 quotes from
a source that only ever serves 4 distinct valid quotes makes exactly 20
requests and returns exactly those 4 candidates. -/
theorem C5_attempt_ceiling :
    (∀ (stream : Nat → Option QuoteItem) (target : Nat),
        quotableAttempts stream target ≤ 2 * target) ∧
    (∀ (stream : Nat → Option String) (target : Nat),
        factsAttempts stream target ≤ 2 * target) ∧
    (scrape_quotable_quotes C5stream 10 =
      [quoteCand ⟨"Ada", "unique quotable content one"⟩,
       quoteCand ⟨"Ada", "unique quotable content two"⟩,
       quoteCand ⟨"Ada", "unique quotable content three"⟩,
       quoteCand ⟨"Ada", "unique quotable content four"⟩] ∧
     quotableAttempts C5stream 10 = 20) := by
  refine ⟨?_, ?_, ?_⟩
  · intro stream target
    unfold quotableAttempts
    have h := adapterGo_attempts_le stream QuoteItem.content quoteCand target
      (target * 2) 0 [] []
    omega
  · intro stream target
    unfold factsAttempts
    have h := adapterGo_attempts_le stream id (fun f => (factTitle f, f)) target
      (target * 2) 0 [] []
    omega
  · decide

/-- A quote source serving two distinct quotes by the same author. -/
def C6stream : Nat → Option QuoteItem := fun n =>
  if n = 0 then some ⟨"Ada", "the first long enough quote"⟩
  else some ⟨"Ada", "the second long enough quote"⟩

/-- C6 counterexample: a single invocation of the quotable adapter, fed
two distinct quotes by the same author, returns two candidates with the
same lower-cased title — quote adapters deduplicate by quote content, not
by lower-cased title. -/
theorem C6_counterexample :
    (scrape_quotable_quotes C6stream 2).map (fun p => pyLower p.1)
      = ["quote by ada", "quote by ada"] := by
  decide

/-- C6 amended: the title-keyed adapters (ArXiv here) return lists with
pairwise-distinct lower-cased titles, but the quote/fact adapters
(`scrape_quotable_quotes`, `scrape_random_facts`, `scrape_zenquotes`)
deduplicate locally by content: their output is the image of a list of
accepted items whose contents are pairwise distinct, and two items can
share a title. -/
theorem C6_local_dedup :
    (∀ (target : Nat) (batches : List (List Cand)),
        (arxivCollect target batches).Pairwise
          (fun a b => pyLower a.1 ≠ pyLower b.1)) ∧
    (∀ (stream : Nat → Option QuoteItem) (target : Nat),
        ∃ items : List QuoteItem,
          scrape_quotable_quotes stream target = items.map quoteCand ∧
          (items.map QuoteItem.content).Nodup) ∧
    (∀ (stream : Nat → Option String) (target : Nat),
        ∃ facts : List String,
          scrape_random_facts stream target
              = facts.map (fun f => (factTitle f, f)) ∧
          facts.Nodup) ∧
    (∀ (stream : Nat → Option QuoteItem) (target : Nat),
        ∃ items : List QuoteItem,
          scrape_zenquotes stream target = items.map quoteCand ∧
          (items.map QuoteItem.content).Nodup) := by
  refine ⟨?_, ?_, ?_, ?_⟩
  · intro target batches
    have h := arxivFold_inv target batches [] [] (by simp) (by simp)
    unfold arxivCollect
    rw [List.Nodup, List.pairwise_map] at h
    exact h
  · intro stream target
    obtain ⟨items, h1, _, _, h4⟩ := adapterGo_spec stream QuoteItem.content
      quoteCand target (target * 2) 0 [] []
    refine ⟨items, ?_, h4⟩
    unfold scrape_quotable_quotes
    rw [h1]
    simp
  · intro stream target
    obtain ⟨facts, h1, _, _, h4⟩ := adapterGo_spec stream id
      (fun f => (factTitle f, f)) target (target * 2) 0 [] []
    refine ⟨facts, ?_, ?_⟩
    · unfold scrape_random_facts
      rw [h1]
      simp
    · simpa using h4
  · intro stream target
    obtain ⟨items, h1, _, _, h4⟩ := adapterGo_spec stream QuoteItem.content
      quoteCand target (target * 2) 0 [] []
    refine ⟨items, ?_, h4⟩
    unfold scrape_zenquotes
    rw [h1]
    simp
